import Mathlib

set_option maxHeartbeats 1000000
set_option maxRecDepth 8000

/-!
Verification development for the live-status dashboard (`live_status.py`).

The embedding is shallow: each Python component is translated to a pure Lean
function.  Side effects (subprocess outcomes, file-write success, the regex
parse of ping output, wall-clock time) are modelled as explicit environment
inputs; machine floats of the source are modelled as exact rationals.
-/

namespace LiveStatus

/-- A per-target record of the ping state store, mirroring the dictionary
with fields ok, latency_ms, ts, err, misses, checks kept in
PingState.latest.  Timestamps are abstract clock values. -/
structure PingRec where
  ok : Bool
  latency_ms : Option Rat
  ts : Option Nat
  err : Option String
  misses : Nat
  checks : Nat
  deriving Repr, DecidableEq

/-- The record PingState.__init__ installs for every configured target. -/
def initRec : PingRec :=
  { ok := false, latency_ms := none, ts := none, err := none, misses := 0, checks := 0 }

/-- PingState.latest as a total map from target to record.  A key absent from
the Python dictionary behaves exactly like initRec in every operation
(update reads counters with get(..., 0) from an empty dict, increment uses
setdefault with the initial record), so the total map with default initRec is
extensionally faithful. -/
def PingStore := String → PingRec

/-- PingState.update: replaces the record for target with the given probe
result, stamping the current clock, carrying over the misses and checks
counters of the previous record; other keys untouched. -/
def PingState.update (store : PingStore) (target : String) (ok : Bool)
    (latency_ms : Option Rat) (err : Option String) (now : Nat) : PingStore :=
  fun t =>
    if t = target then
      { ok := ok, latency_ms := latency_ms, ts := some now, err := err,
        misses := (store target).misses, checks := (store target).checks }
    else store t

/-- PingState.increment: checks += 1, and misses += 1 iff the probe was not
ok; other keys untouched. -/
def PingState.increment (store : PingStore) (target : String) (ok : Bool) : PingStore :=
  fun t =>
    if t = target then
      { store target with
        checks := (store target).checks + 1,
        misses := if ok then (store target).misses else (store target).misses + 1 }
    else store t

/-- PingState.snapshot: a copy of the mapping; in the pure model the copy is
the map itself. -/
def PingState.snapshot (store : PingStore) : PingStore := store

/-- The result triple of try_ping_once: (ok, latency_ms, err). -/
structure PResult where
  ok : Bool
  latency_ms : Option Rat
  err : Option String
  deriving Repr, DecidableEq

/-- A PING_UP / PING_DOWN line appended by the ping loop through EVENTS.log,
with the fields the code passes. -/
inductive PingEvent where
  | up (target : String) (latency_ms : Option Rat)
  | down (target : String) (error : Option String)
  deriving Repr, DecidableEq

/-- The target field carried by a ping event. -/
def PingEvent.target : PingEvent → String
  | .up t _ => t
  | .down t _ => t

/-- The event the ping loop writes for one probe outcome: PING_UP with the
latency on success, PING_DOWN with the error otherwise. -/
def mkPingEvent (target : String) (r : PResult) : PingEvent :=
  if r.ok then .up target r.latency_ms else .down target r.err

/-- Loop-local state of ping_worker: the prev_ok dictionary (None until the
first observation of a target) together with the shared store
PING_STATE.latest. -/
structure WorkerState where
  prevOk : String → Option Bool
  store : PingStore

/-- The body of the for-target loop inside ping_worker: probe, increment,
update, then log a baseline event (first observation) or a transition event
(ok differs from prev_ok[target]), and finally record prev_ok[target] = ok. -/
def pingTargetStep (probe : String → PResult) (now : Nat) (s : WorkerState)
    (target : String) : WorkerState × List PingEvent :=
  let r := probe target
  let store1 := PingState.increment s.store target r.ok
  let store2 := PingState.update store1 target r.ok r.latency_ms r.err now
  let ev : List PingEvent :=
    match s.prevOk target with
    | none => [mkPingEvent target r]
    | some p => if p ≠ r.ok then [mkPingEvent target r] else []
  (⟨fun t => if t = target then some r.ok else s.prevOk t, store2⟩, ev)

/-- One full cycle of ping_worker: the for-target loop over the target list,
concatenating the logged events in order. -/
def pingCycle (probe : String → PResult) (now : Nat) :
    WorkerState → List String → WorkerState × List PingEvent
  | s, [] => (s, [])
  | s, target :: rest =>
    let p := pingTargetStep probe now s target
    let q := pingCycle probe now p.1 rest
    (q.1, p.2 ++ q.2)

/-- ping_worker run over a finite list of cycles; each cycle supplies the
probe outcome per target (the result of try_ping_once for that cycle), and
the cycle index serves as the clock. -/
def runPingAux (targets : List String) :
    Nat → WorkerState → List (String → PResult) → WorkerState × List PingEvent
  | _, s, [] => (s, [])
  | i, s, c :: cs =>
    let p := pingCycle c i s targets
    let q := runPingAux targets (i + 1) p.1 cs
    (q.1, p.2 ++ q.2)

/-- The initial worker state: prev_ok maps every target to None, and the
store holds the initial record everywhere. -/
def initWorker : WorkerState := ⟨fun _ => none, fun _ => initRec⟩

/-- ping_worker from process start, for a finite list of probe cycles. -/
def runPing (targets : List String) (cycles : List (String → PResult)) :
    WorkerState × List PingEvent :=
  runPingAux targets 0 initWorker cycles

/-- The events of a run that carry a given target field. -/
def eventsFor (t : String) (evs : List PingEvent) : List PingEvent :=
  evs.filter (fun e => e.target == t)

/-- Spec-side event sequence for one target, following the claim's wording:
one baseline event on the first observation, then one event exactly when ok
differs from the immediately preceding observation, and no event otherwise. -/
def expectedEvents (target : String) : Option Bool → List PResult → List PingEvent
  | _, [] => []
  | none, r :: rs => mkPingEvent target r :: expectedEvents target (some r.ok) rs
  | some p, r :: rs =>
    (if p ≠ r.ok then [mkPingEvent target r] else []) ++ expectedEvents target (some r.ok) rs

/-- The number of probe results that were not ok. -/
def countFails (rs : List PResult) : Nat := (rs.filter (fun r => r.ok = false)).length

/-- The store invariant of C6: a record carries a latency only when its ok
flag is set. -/
def latInv (store : PingStore) : Prop :=
  ∀ u, ((store u).latency_ms).isSome → (store u).ok = true

/-- HeartbeatState: the thread-safe record kept by the heartbeat loop. -/
structure HbState where
  path : String
  last_write_ts : Option Nat
  last_error : Option String
  bytes_written : Nat
  deriving Repr, DecidableEq

/-- HeartbeatState.record_success: stamps the clock, clears the error, stores
the number of bytes written. -/
def HbState.record_success (s : HbState) (now nbytes : Nat) : HbState :=
  { s with last_write_ts := some now, last_error := none, bytes_written := nbytes }

/-- HeartbeatState.record_error: stores the error, leaves the rest. -/
def HbState.record_error (s : HbState) (err : String) : HbState :=
  { s with last_error := some err }

/-- HeartbeatState.snapshot: a copy; the pure model returns the state. -/
def HbState.snapshot (s : HbState) : HbState := s

/-- Outcome of one heartbeat cycle's file write, as external input: the write
either appends nbytes successfully or fails with an exception message. -/
inductive HbOutcome where
  | success (nbytes : Nat)
  | failure (err : String)
  deriving Repr, DecidableEq

/-- Whether a heartbeat cycle succeeded. -/
def HbOutcome.isSuccess : HbOutcome → Bool
  | .success _ => true
  | .failure _ => false

/-- A HEARTBEAT_ERROR / HEARTBEAT_RECOVERED line appended through EVENTS.log,
with the fields the code passes. -/
inductive HbEvent where
  | heartbeatError (path : String) (error : String)
  | heartbeatRecovered (path : String) (bytes : Nat)
  deriving Repr, DecidableEq

/-- One iteration of the while-loop body of heartbeat_worker: on success,
record_success, and if had_error log HEARTBEAT_RECOVERED and clear had_error;
on failure, record_error, and if not had_error log HEARTBEAT_ERROR and set
had_error. -/
def heartbeatStep (now : Nat) (hadError : Bool) (st : HbState) (o : HbOutcome) :
    Bool × HbState × List HbEvent :=
  match o with
  | .success n =>
    let st1 := st.record_success now n
    if hadError then (false, st1, [.heartbeatRecovered st.path n])
    else (hadError, st1, [])
  | .failure e =>
    let st1 := st.record_error e
    if hadError then (hadError, st1, [])
    else (true, st1, [.heartbeatError st.path e])

/-- heartbeat_worker run over a finite list of cycle outcomes, from a given
had_error flag and state, collecting the logged events in order. -/
def runHeartbeat : Nat → Bool → HbState → List HbOutcome → Bool × HbState × List HbEvent
  | _, hadError, st, [] => (hadError, st, [])
  | i, hadError, st, o :: os =>
    let p := heartbeatStep i hadError st o
    let q := runHeartbeat (i + 1) p.1 p.2.1 os
    (q.1, q.2.1, p.2.2 ++ q.2.2)

/-- Spec-side heartbeat event list, following the claim's wording: an error
event exactly on a failing cycle immediately preceded by a non-failing state,
a recovery event exactly on a succeeding cycle immediately preceded by an
error state, and nothing on a cycle whose status equals the previous one.
The state before the first cycle counts as non-failing. -/
def expectedHbEvents (path : String) : Bool → List HbOutcome → List HbEvent
  | _, [] => []
  | prevSucc, .success n :: os =>
    (if prevSucc then [] else [.heartbeatRecovered path n]) ++ expectedHbEvents path true os
  | prevSucc, .failure e :: os =>
    (if prevSucc then [.heartbeatError path e] else []) ++ expectedHbEvents path false os

/-- Outcome of one subprocess.run invocation inside try_ping_once, as seen by
the code: a completed process (return code, captured stdout and stderr, the
latency the regex finds in stdout if any, and the elapsed wall-clock
milliseconds), or one of the exceptions the code catches.  The parsed latency
is part of the environment because the probe output is external input. -/
inductive AttemptResult where
  | completed (returncode : Int) (stdout stderr : String)
      (parsedLatency : Option Rat) (elapsed_ms : Rat)
  | fileNotFound (msg : String)
  | timeoutExpired (msg : String)
  | otherError (msg : String)

/-- Python round(x, 2) on the elapsed milliseconds, on exact rationals. -/
def round2 (q : Rat) : Rat := ((round (q * 100) : Int) : Rat) / 100

/-- Python a or b on strings: b when a is empty. -/
def pyOr (a b : String) : String := if a = "" then b else a

/-- Python last_error or "unknown" at the final return of try_ping_once:
an unset or empty diagnostic becomes "unknown". -/
def pyOrUnknown : Option String → String
  | none => "unknown"
  | some s => if s = "" then "unknown" else s

/-- The two ping command variants try_ping_once attempts. -/
def pingVariants (target : String) : List (List String) :=
  [["ping", "-c", "1", "-W", "1", target],
   ["ping", "-c", "1", "-t", "1", target]]

/-- The for-args loop of try_ping_once.  env i is the outcome of the i-th
subprocess.run invocation; the second component of the result counts those
invocations.  A zero return code returns success with the parsed latency or
the rounded elapsed time; a non-zero exit stores stderr-or-stdout and tries
the next variant; FileNotFoundError stores the message and breaks out of the
loop; TimeoutExpired and any other exception store a message and continue.
After the loop the failure triple is returned with last_error or "unknown". -/
def tryPingLoop (env : Nat → AttemptResult) :
    Nat → Option String → List (List String) → PResult × Nat
  | used, lastError, [] =>
    (⟨false, none, some (pyOrUnknown lastError)⟩, used)
  | used, _lastError, _ :: rest =>
    match env used with
    | .completed rc _out errS parsed elapsed =>
      if rc = 0 then
        (⟨true, some (match parsed with | some l => l | none => round2 elapsed), none⟩,
         used + 1)
      else
        tryPingLoop env (used + 1) (some (pyOr errS _out)) rest
    | .fileNotFound m => (⟨false, none, some (pyOrUnknown (some m))⟩, used + 1)
    | .timeoutExpired m => tryPingLoop env (used + 1) (some ("timeout (" ++ m ++ ")")) rest
    | .otherError m => tryPingLoop env (used + 1) (some m) rest

/-- try_ping_once: runs the variant loop from a fresh state.  The function is
total: every failure path of the source is converted to a returned triple. -/
def tryPingOnce (env : Nat → AttemptResult) (target : String) : PResult × Nat :=
  tryPingLoop env 0 none (pingVariants target)

/-- str.replace with a single-character pattern: every occurrence of c is
replaced by the string r. -/
def replaceChar : List Char → Char → List Char → List Char
  | [], _, _ => []
  | x :: xs, c, r => (if x = c then r else [x]) ++ replaceChar xs c r

/-- The double-quote character. -/
def quoteChar : Char := Char.ofNat 34

/-- The apostrophe character. -/
def aposChar : Char := Char.ofNat 39

/-- html_escape: the chained replace calls of the source, ampersand first. -/
def html_escape (s : String) : String :=
  String.mk
    (replaceChar
      (replaceChar
        (replaceChar
          (replaceChar
            (replaceChar s.data '&' ("&amp;".data))
            '<' ("&lt;".data))
          '>' ("&gt;".data))
        quoteChar ("&quot;".data))
      aposChar ("&#39;".data))

/-- Python str.startswith as a prefix test on the character lists. -/
def strStartsWith (s pre : String) : Bool := pre.data.isPrefixOf s.data

/-- The body of a response from Handler.do_GET: the JSON health payload with
its constant ok field, or the rendered index page (abstracted to a tag). -/
inductive BodyKind where
  | healthJson (ok : Bool) (time host : String)
  | htmlPage
  deriving Repr, DecidableEq

/-- The status line and headers sent by Handler together with the body. -/
structure HttpResponse where
  status : Nat
  contentType : String
  cacheControl : String
  pragmaHeader : String
  expires : String
  body : BodyKind
  deriving Repr, DecidableEq

/-- The Cache-Control value both branches of the handler send. -/
def noCacheValue : String := "no-store, no-cache, must-revalidate, max-age=0"

/-- Handler.do_GET: a path starting with /health gets the JSON health payload
(ok is the constant True, plus the current time and hostname); every other
path gets the rendered index page.  Both branches send status 200 and the
same no-cache headers. -/
def doGET (path : String) (now host : String) : HttpResponse :=
  if strStartsWith path "/health" then
    { status := 200, contentType := "application/json",
      cacheControl := noCacheValue, pragmaHeader := "no-cache", expires := "0",
      body := .healthJson true now host }
  else
    { status := 200, contentType := "text/html; charset=utf-8",
      cacheControl := noCacheValue, pragmaHeader := "no-cache", expires := "0",
      body := .htmlPage }

/-- A JSON value as passed to json.dumps by EventLogger.log call sites
(strings, integers, booleans, null). -/
inductive JVal where
  | jstr (s : String)
  | jint (n : Int)
  | jbool (b : Bool)
  | jnull
  deriving Repr, DecidableEq

/-- A lower-case hexadecimal digit. -/
def hexDigitChar (n : Nat) : Char :=
  if n % 16 < 10 then Char.ofNat (48 + n % 16) else Char.ofNat (87 + n % 16)

/-- A decimal digit character. -/
def digitChar (n : Nat) : Char := Char.ofNat (48 + n % 10)

/-- Decimal representation of a natural number. -/
def natRepr (n : Nat) : List Char :=
  if _h : n < 10 then [digitChar n]
  else natRepr (n / 10) ++ [digitChar n]
decreasing_by
  exact Nat.div_lt_self (by omega) (by omega)

/-- Decimal representation of an integer. -/
def intRepr (i : Int) : List Char :=
  if i < 0 then '-' :: natRepr i.natAbs else natRepr i.natAbs

/-- The escape json.dumps applies to one character inside a string literal. -/
def jsonEscapeChar (c : Char) : List Char :=
  if c = quoteChar then ['\\', quoteChar]
  else if c = '\\' then ['\\', '\\']
  else if c = '\n' then ['\\', 'n']
  else if c = '\r' then ['\\', 'r']
  else if c = '\t' then ['\\', 't']
  else if c = Char.ofNat 8 then ['\\', 'b']
  else if c = Char.ofNat 12 then ['\\', 'f']
  else if c.toNat < 32 then
    '\\' :: 'u' :: '0' :: '0' :: [hexDigitChar (c.toNat / 16), hexDigitChar (c.toNat % 16)]
  else [c]

/-- json.dumps on a single value, with compact separators. -/
def jsonDumps : JVal → String
  | .jstr s =>
    String.mk (quoteChar :: s.data.foldr (fun c acc => jsonEscapeChar c ++ acc) [quoteChar])
  | .jint n => String.mk (intRepr n)
  | .jbool b => if b then "true" else "false"
  | .jnull => "null"

/-- Python " ".join. -/
def joinSpace : List String → String
  | [] => ""
  | [p] => p
  | p :: ps => p ++ " " ++ joinSpace ps

/-- The line EventLogger.log formats: the timestamp, the event kind, then
key=value pairs with JSON-encoded values joined by single spaces, and a
trailing newline. -/
def formatLine (ts event : String) (fields : List (String × JVal)) : String :=
  ts ++ " " ++ event ++ " " ++
    joinSpace (fields.map (fun kv => kv.1 ++ "=" ++ jsonDumps kv.2)) ++ "\n"

/-- Whether the append to the events file and the fallback write to the
diagnostic stream succeed, as external inputs. -/
structure LogEnv where
  writeOk : Bool
  stderrOk : Bool

/-- What EventLogger.log emitted: the line appended to the events file, if
any, and the line written to the diagnostic stream, if any. -/
structure LogEffect where
  fileAppended : Option String
  stderrWritten : Option String
  deriving Repr, DecidableEq

/-- EventLogger.log: formats the line, opens the events file and appends the
line; when the open or write raises, writes the same line to stderr instead;
when that write raises too, the event is dropped.  No path raises to the
caller; the function is total over every environment. -/
def EventLogger.log (env : LogEnv) (ts event : String)
    (fields : List (String × JVal)) : LogEffect :=
  let line := formatLine ts event fields
  if env.writeOk then { fileAppended := some line, stderrWritten := none }
  else if env.stderrOk then { fileAppended := none, stderrWritten := some line }
  else { fileAppended := none, stderrWritten := none }

/-- The unit list of human_bytes. -/
def hbUnits : List String := ["B", "KB", "MB", "GB", "TB"]

/-- One-decimal rendering of the source's float format, on exact rationals
(the tie-breaking of the float formatting is abstracted by rounding the
scaled value to the nearest integer). -/
def fmt1 (x : Rat) (u : String) : String :=
  String.mk (natRepr ((round (x * 10) : Int).toNat / 10)) ++ "." ++
    String.mk (natRepr ((round (x * 10) : Int).toNat % 10)) ++ " " ++ u

/-- The for-u loop of human_bytes: return the formatted value when x is below
1024 or u is the last unit, else divide by 1024 and continue; none models the
implicit Python None when the loop would fall through. -/
def humanBytesLoop : Rat → List String → Option String
  | _, [] => none
  | x, u :: rest =>
    if x < 1024 ∨ u = hbUnits.getLast! then some (fmt1 x u)
    else humanBytesLoop (x / 1024) rest

/-- human_bytes on a byte count. -/
def human_bytes (n : Nat) : Option String := humanBytesLoop (n : Rat) hbUnits


/-! Static fragments of the render_index template, exactly the text between
the interpolation points of the source's f-string (doubled braces of the
f-string are single braces of the output). -/

/-- Static template text of render_index (head, part 1). -/
def tplHead1 : String :=
  "\n<!doctype html>\n<html lang=\x22en\x22>\n<head>\n  <meta charset=\x22utf-8\x22 />\n  <meta http-equiv=\x22cache-control\x22 content=\x22no-store, no-cache, must-revalidate\x22 />\n  <meta http-equiv=\x22pragma\x22 content=\x22no-cache\x22 />\n  <meta http-equiv=\x22expires\x22 content=\x220\x22 />\n  <meta http-equiv=\x22refresh\x22 content=\x221\x22 />\n"

/-- Static template text of render_index (head, part 2). -/
def tplHead2 : String :=
  "  <meta name=\x22viewport\x22 content=\x22width=device-width, initial-scale=1\x22 />\n  <title>Live Server Status</title>\n  <style>\n    body \x7b font-family: -apple-system, BlinkMacSystemFont, Segoe UI, Roboto, Helvetica, Arial, sans-serif; margin: 1.5rem; color: #222; background: #fafafa; \x7d\n"

/-- Static template text of render_index (head, part 3). -/
def tplHead3 : String :=
  "    h1 \x7b margin: 0 0 0.25rem 0; font-size: 1.4rem; \x7d\n    .muted \x7b color: #666; font-size: 0.9rem; \x7d\n    table \x7b border-collapse: collapse; margin-top: 0.5rem; \x7d\n    th, td \x7b padding: 0.35rem 0.6rem; border-bottom: 1px solid #e5e5e5; text-align: left; \x7d\n    .section \x7b margin-top: 1rem; \x7d\n"

/-- Static template text of render_index (head, part 4). -/
def tplHead4 : String :=
  "    code \x7b background: #f2f2f2; padding: 0.1rem 0.25rem; border-radius: 3px; \x7d\n    pre \x7b background: #f8f8f8; border: 1px solid #eee; padding: 0.5rem; border-radius: 4px; max-height: 240px; overflow: auto; \x7d\n  </style>\n</head>\n<body>\n  <h1>Live Server Status</h1>\n  <div class=\x22muted\x22>Updated: "

/-- Static template text of render_index. -/
def tplAfterUpdated : String :=
  "</div>\n\n  <div class=\x22section\x22>\n    <strong>Hostname:</strong> "

/-- Static template text of render_index. -/
def tplAfterHost : String :=
  "<br />\n    <strong>IP:</strong> "

/-- Static template text of render_index. -/
def tplAfterIps : String :=
  "\n  </div>\n\n  <div class=\x22section\x22>\n    <strong>Ping</strong>\n    <table>\n      <thead>\n        <tr><th>Target</th><th>Status</th><th>Latency</th><th>Missed</th><th>Last Check</th></tr>\n      </thead>\n      <tbody>\n        "

/-- Static template text of render_index. -/
def tplAfterRows : String :=
  "\n      </tbody>\n    </table>\n  </div>\n\n  <div class=\x22section\x22>\n    <strong>Disk Activity</strong>\n    <div>Heartbeat file: <code>"

/-- Static template text of render_index. -/
def tplAfterHbFile : String :=
  "</code></div>\n    <div>Last write: "

/-- Static template text of render_index. -/
def tplAfterHbWhen : String :=
  " | Chunk: "

/-- Static template text of render_index. -/
def tplAfterBytes : String :=
  " bytes</div>\n    "

/-- Static template text of render_index. -/
def tplBeforeDisk : String :=
  "\n    <div class=\x22muted\x22>Disk usage ("

/-- Static template text of render_index. -/
def tplAfterDiskPath : String :=
  "): total "

/-- Static template text of render_index. -/
def tplAfterTotal : String :=
  ", used "

/-- Static template text of render_index. -/
def tplAfterUsed : String :=
  ", free "

/-- Static template text of render_index. -/
def tplAfterFree : String :=
  "</div>\n  </div>\n\n  <div class=\x22section\x22>\n    <strong>Events Log</strong>\n    <div class=\x22muted\x22>Path: <code>"

/-- Static template text of render_index. -/
def tplAfterLogPath : String :=
  "</code> (last entries)</div>\n    <pre>"

/-- Static template text of render_index. -/
def tplAfterEvents : String :=
  "</pre>\n    <div class=\x22muted\x22>Cache disabled; page refreshes every second.</div>\n  </div>\n</body>\n</html>\n"

/-- Static template text of render_index. -/
def tplRowStart : String :=
  "<tr><td>"

/-- Static template text of render_index. -/
def tplRowAfterTarget : String :=
  "</td><td style=\x27color:"

/-- Static template text of render_index. -/
def tplRowAfterColor : String :=
  ";font-weight:bold\x27>"

/-- Static template text of render_index. -/
def tplRowAfterStatus : String :=
  "</td><td>"

/-- Static template text of render_index. -/
def tplRowAfterLatency : String :=
  "</td><td>"

/-- Static template text of render_index. -/
def tplRowAfterMisses : String :=
  "</td><td>"

/-- Static template text of render_index. -/
def tplRowEnd : String :=
  "</td></tr>"

/-- Static template text of render_index. -/
def tplErrStart : String :=
  "<div style=\x27color:#cc2222\x27>Error: "

/-- Static template text of render_index. -/
def tplErrEnd : String :=
  "</div>"

/-- Two-decimal rendering of the latency f-string format, on exact
rationals (the tie-breaking of the float formatting is abstracted by
rounding the scaled value to the nearest integer; probe latencies are
non-negative). -/
def fmt2 (x : Rat) : String :=
  String.mk (natRepr (((round (x * 100) : Int)).toNat / 100)) ++ "." ++
    (if ((round (x * 100) : Int)).toNat % 100 < 10 then "0" else "") ++
    String.mk (natRepr (((round (x * 100) : Int)).toNat % 100))

/-- How the f-string interpolates an optional string: the value itself, or
the text None (relevant because the modelled human_bytes returns an option;
the source function always returns a string, as proved below). -/
def pyStr : Option String → String
  | some s => s
  | none => "None"

/-- One piece of the rendered page: a static template fragment, or
interpolated data (an escaped dynamic string, or generated text such as a
number, a status word or a colour constant). -/
inductive RPiece where
  | lit (s : String)
  | dyn (l : List Char)

/-- The characters a piece contributes to the page. -/
def RPiece.data : RPiece → List Char
  | .lit s => s.data
  | .dyn l => l

/-- The concatenation of the pieces, in template order. -/
def renderPieces : List RPiece → List Char
  | [] => []
  | p :: ps => p.data ++ renderPieces ps

/-- The first three characters of the forbidden substring: a literal
occurrence of the text script-tag-opening requires this prefix. -/
def sc : List Char := ['<', 's', 'c']

/-- Conditions on one piece under which no forbidden substring can occur
inside it or straddling its right edge: it does not contain the three-char
prefix, and it ends neither in the single opening bracket nor in the
bracket-plus-s pair. -/
abbrev pieceOK (p : RPiece) : Prop :=
  ¬ sc <:+: p.data ∧ ¬ (['<'] <:+ p.data) ∧ ¬ (['<', 's'] <:+ p.data)

/-- Every piece of a list is safe. -/
abbrev allOK (ps : List RPiece) : Prop := ∀ p ∈ ps, pieceOK p

/-- The ping_row helper of render_index, split at its interpolation points:
the target and the formatted last-check time pass through html_escape; the
status word, the colour constant, the formatted latency and the miss counter
are interpolated directly, exactly as the source row f-string does. -/
def ping_row_pieces (target : String) (data : PingRec) (format_dt : Nat → String) :
    List RPiece :=
  let status := if data.ok then "OK" else "FAIL"
  let color := if data.ok then "#22aa22" else "#cc2222"
  let latency_s := match data.latency_ms with
    | some l => fmt2 l ++ " ms"
    | none => "\u2014"
  let when := match data.ts with
    | some ts => format_dt ts
    | none => "\u2014"
  [.lit tplRowStart, .dyn (html_escape target).data,
   .lit tplRowAfterTarget, .dyn color.data,
   .lit tplRowAfterColor, .dyn status.data,
   .lit tplRowAfterStatus, .dyn latency_s.data,
   .lit tplRowAfterLatency, .dyn (String.mk (natRepr data.misses)).data,
   .lit tplRowAfterMisses, .dyn (html_escape when).data,
   .lit tplRowEnd]

/-- render_index, split at the interpolation points of its f-string: every
dynamic string (the formatted time, hostname, IP list, per-target rows, the
heartbeat path, time and error, the disk path, the events-log path and the
events tail) passes through html_escape; the byte counter and the
human-readable sizes are generated text interpolated directly. -/
def render_index_pieces (now_local host ips : String) (targets : List String)
    (pings : PingStore) (hb : HbState) (format_dt : Nat → String)
    (disk_path : String) (disk_total disk_used disk_free : Nat)
    (events_log_path events_text : String) : List RPiece :=
  let hb_when := match hb.last_write_ts with
    | some ts => format_dt ts
    | none => "\u2014"
  let hb_err_html : List RPiece := match hb.last_error with
    | some e => [.lit tplErrStart, .dyn (html_escape e).data, .lit tplErrEnd]
    | none => []
  [.lit tplHead1, .lit tplHead2, .lit tplHead3, .lit tplHead4,
   .dyn (html_escape now_local).data,
   .lit tplAfterUpdated, .dyn (html_escape host).data,
   .lit tplAfterHost, .dyn (html_escape ips).data,
   .lit tplAfterIps]
  ++ (targets.map (fun t => ping_row_pieces t (pings t) format_dt)).flatten
  ++ [.lit tplAfterRows, .dyn (html_escape hb.path).data,
      .lit tplAfterHbFile, .dyn (html_escape hb_when).data,
      .lit tplAfterHbWhen, .dyn (String.mk (natRepr hb.bytes_written)).data,
      .lit tplAfterBytes]
  ++ hb_err_html
  ++ [.lit tplBeforeDisk, .dyn (html_escape disk_path).data,
      .lit tplAfterDiskPath, .dyn (pyStr (human_bytes disk_total)).data,
      .lit tplAfterTotal, .dyn (pyStr (human_bytes disk_used)).data,
      .lit tplAfterUsed, .dyn (pyStr (human_bytes disk_free)).data,
      .lit tplAfterFree, .dyn (html_escape events_log_path).data,
      .lit tplAfterLogPath, .dyn (html_escape events_text).data,
      .lit tplAfterEvents]

/-- render_index: the page text assembled from the pieces.  The inputs are
the values the source gathers before formatting: the formatted local time,
hostname, joined IP list, the target list with the ping snapshot, the
heartbeat snapshot, the time formatter, the disk-usage summary and the
events-log path and tail. -/
def render_index (now_local host ips : String) (targets : List String)
    (pings : PingStore) (hb : HbState) (format_dt : Nat → String)
    (disk_path : String) (disk_total disk_used disk_free : Nat)
    (events_log_path events_text : String) : String :=
  String.mk (renderPieces (render_index_pieces now_local host ips targets pings hb
    format_dt disk_path disk_total disk_used disk_free events_log_path events_text))

/-! ## Theorems -/

/-- C5: PingState.update replaces the record for the target with the given
probe values, stamping the current clock and carrying over the cumulative
misses and checks counters of the previous record, and leaves the record of
every other target unchanged. -/
theorem update_replaces_and_frames (store : PingStore) (target : String) (ok : Bool)
    (latency_ms : Option Rat) (err : Option String) (now : Nat) :
    PingState.update store target ok latency_ms err now target =
      { ok := ok, latency_ms := latency_ms, ts := some now, err := err,
        misses := (store target).misses, checks := (store target).checks } ∧
    ∀ t, t ≠ target → PingState.update store target ok latency_ms err now t = store t := by
  constructor
  · simp [PingState.update]
  · intro t ht
    simp [PingState.update, ht]

/-- Witness for C5 at a concrete store and targets. -/
theorem update_replaces_and_frames_witness :
    PingState.update (fun _ => initRec) "10.50.20.1" true (some 5) none 7 "10.50.20.1" =
      { ok := true, latency_ms := some 5, ts := some 7, err := none,
        misses := 0, checks := 0 } ∧
    PingState.update (fun _ => initRec) "10.50.20.1" true (some 5) none 7 "1.1.1.1" =
      initRec := by
  have h := update_replaces_and_frames (fun _ => initRec) "10.50.20.1" true (some 5) none 7
  exact ⟨h.1, h.2 "1.1.1.1" (by decide)⟩

/-- The loop of human_bytes returns a value whenever the last unit "TB" is
among the remaining units: either the guard fires earlier, or it fires on the
final unit. -/
theorem humanBytesLoop_isSome (us : List String) (hmem : "TB" ∈ us) (x : Rat) :
    (humanBytesLoop x us).isSome := by
  induction us generalizing x with
  | nil => cases hmem
  | cons u rest ih =>
    rw [humanBytesLoop]
    split
    · rfl
    · rename_i hcond
      have hu : u ≠ "TB" := by
        intro hEq
        exact hcond (Or.inr (by rw [hEq]; decide))
      cases hmem with
      | head => exact absurd rfl hu
      | tail _ hmem2 => exact ih hmem2 (x / 1024)

/-- C10: human_bytes returns a string for every byte count; the final-unit
guard makes the loop return on the last iteration, so the function never
falls through to an implicit None. -/
theorem human_bytes_total (n : Nat) : (human_bytes n).isSome = true :=
  humanBytesLoop_isSome hbUnits (by decide) (n : Rat)

/-- The heartbeat loop's events coincide with the spec-side list computed
from the success/failure statuses alone: the loop-local had_error flag always
equals the negation of the previous cycle's success (initially false), and
the path recorded in events never changes. -/
theorem runHeartbeat_events_eq (os : List HbOutcome) :
    ∀ (i : Nat) (hadError : Bool) (st : HbState),
      (runHeartbeat i hadError st os).2.2 = expectedHbEvents st.path (!hadError) os ∧
      (runHeartbeat i hadError st os).2.1.path = st.path := by
  induction os with
  | nil => intro i hadError st; exact ⟨rfl, rfl⟩
  | cons o os ih =>
    intro i hadError st
    cases o with
    | success n =>
      cases hadError <;>
        simpa [runHeartbeat, heartbeatStep, expectedHbEvents, HbState.record_success]
          using ih (i + 1) false (st.record_success i n)
    | failure e =>
      cases hadError <;>
        simpa [runHeartbeat, heartbeatStep, expectedHbEvents, HbState.record_error]
          using ih (i + 1) true (st.record_error e)

/-- C3: starting from the non-error state, the heartbeat loop logs
HEARTBEAT_ERROR exactly on a failing cycle immediately preceded by a
non-failing state and HEARTBEAT_RECOVERED exactly on a succeeding cycle
immediately preceded by an error state, and logs nothing on a cycle whose
status equals the previous cycle's; in particular three consecutive failures
followed by a success log exactly one error event then one recovery event. -/
theorem heartbeat_transition_events (st0 : HbState) (i : Nat) (os : List HbOutcome) :
    (runHeartbeat i false st0 os).2.2 = expectedHbEvents st0.path true os ∧
    ∀ e1 e2 e3 n,
      (runHeartbeat i false st0
          [.failure e1, .failure e2, .failure e3, .success n]).2.2 =
        [HbEvent.heartbeatError st0.path e1, HbEvent.heartbeatRecovered st0.path n] := by
  refine ⟨(runHeartbeat_events_eq os i false st0).1, ?_⟩
  intro e1 e2 e3 n
  rw [(runHeartbeat_events_eq _ i false st0).1]
  simp [expectedHbEvents]

/-- The last_error or "unknown" fallback never yields the empty string. -/
theorem pyOrUnknown_ne_empty (o : Option String) : pyOrUnknown o ≠ "" := by
  cases o with
  | none => decide
  | some s =>
    rw [pyOrUnknown]
    split
    · decide
    · assumption

/-- Shape of the result of the variant loop of try_ping_once, from any loop
state: a success carries a latency and no error, a failure carries no latency
and a non-empty diagnostic. -/
theorem tryPingLoop_shape (vs : List (List String)) :
    ∀ (env : Nat → AttemptResult) (used : Nat) (le : Option String),
      ((tryPingLoop env used le vs).1.ok = true →
        (tryPingLoop env used le vs).1.err = none ∧
        ((tryPingLoop env used le vs).1.latency_ms).isSome) ∧
      ((tryPingLoop env used le vs).1.ok = false →
        (tryPingLoop env used le vs).1.latency_ms = none ∧
        ∃ s, (tryPingLoop env used le vs).1.err = some s ∧ s ≠ "") := by
  induction vs with
  | nil =>
    intro env used le
    simp [tryPingLoop, pyOrUnknown_ne_empty]
  | cons v rest ih =>
    intro env used le
    rcases henv : env used with ⟨rc, out, errS, parsed, elapsed⟩ | m | m | m
    · by_cases hrc : rc = 0
      · simp [tryPingLoop, henv, if_pos hrc]
      · simp only [tryPingLoop, henv, if_neg hrc]
        exact ih env (used + 1) (some (pyOr errS out))
    · simp [tryPingLoop, henv, pyOrUnknown_ne_empty]
    · simp only [tryPingLoop, henv]
      exact ih env (used + 1) _
    · simp only [tryPingLoop, henv]
      exact ih env (used + 1) _

/-- The variant loop invokes subprocess.run at most once per remaining
variant. -/
theorem tryPingLoop_spawn_bound (vs : List (List String)) :
    ∀ (env : Nat → AttemptResult) (used : Nat) (le : Option String),
      (tryPingLoop env used le vs).2 ≤ used + vs.length := by
  induction vs with
  | nil => intro env used le; simp [tryPingLoop]
  | cons v rest ih =>
    intro env used le
    have hlen : used + (v :: rest).length = (used + 1) + rest.length := by
      simp [List.length_cons]; omega
    rcases henv : env used with ⟨rc, out, errS, parsed, elapsed⟩ | m | m | m
    · by_cases hrc : rc = 0
      · simp only [tryPingLoop, henv, if_pos hrc]
        simp [List.length_cons]
      · simp only [tryPingLoop, henv, if_neg hrc]
        rw [hlen]
        exact ih env (used + 1) _
    · simp only [tryPingLoop, henv]
      simp [List.length_cons]
    · simp only [tryPingLoop, henv]
      rw [hlen]
      exact ih env (used + 1) _
    · simp only [tryPingLoop, henv]
      rw [hlen]
      exact ih env (used + 1) _

/-- C4: try_ping_once never raises; on success it returns ok with a latency
and no error, on failure it returns not-ok with a null latency and a
non-empty diagnostic string, and it invokes subprocess.run at most twice per
call (one external process per invocation). -/
theorem tryPingOnce_shape (env : Nat → AttemptResult) (target : String) :
    (tryPingOnce env target).2 ≤ 2 ∧
    ((tryPingOnce env target).1.ok = true →
      (tryPingOnce env target).1.err = none ∧
      ((tryPingOnce env target).1.latency_ms).isSome) ∧
    ((tryPingOnce env target).1.ok = false →
      (tryPingOnce env target).1.latency_ms = none ∧
      ∃ s, (tryPingOnce env target).1.err = some s ∧ s ≠ "") := by
  refine ⟨?_, tryPingLoop_shape (pingVariants target) env 0 none⟩
  have h := tryPingLoop_spawn_bound (pingVariants target) env 0 none
  simpa [pingVariants] using h

/-- Witness for C4 at a concrete environment in which every invocation
raises a generic exception: two invocations, then the failure triple. -/
theorem tryPingOnce_shape_witness :
    (tryPingOnce (fun _ => AttemptResult.otherError "boom") "1.1.1.1").2 ≤ 2 ∧
    (tryPingOnce (fun _ => AttemptResult.otherError "boom") "1.1.1.1").1.latency_ms = none := by
  have h := tryPingOnce_shape (fun _ => AttemptResult.otherError "boom") "1.1.1.1"
  exact ⟨h.1, (h.2.2 rfl).1⟩

/-- The loop body for one target leaves the record and the previous
observation of every other target unchanged. -/
theorem step_store_ne (probe : String → PResult) (now : Nat) (s : WorkerState)
    (target t : String) (h : t ≠ target) :
    (pingTargetStep probe now s target).1.store t = s.store t ∧
    (pingTargetStep probe now s target).1.prevOk t = s.prevOk t := by
  constructor <;>
    simp [pingTargetStep, PingState.update, PingState.increment, h]

/-- The event logged for an outcome carries that target. -/
theorem mkPingEvent_target (target : String) (r : PResult) :
    (mkPingEvent target r).target = target := by
  unfold mkPingEvent
  split <;> rfl

/-- Every event logged by the loop body for one target carries that target. -/
theorem step_events_target (probe : String → PResult) (now : Nat) (s : WorkerState)
    (target : String) :
    ∀ e ∈ (pingTargetStep probe now s target).2, e.target = target := by
  intro e he
  simp only [pingTargetStep] at he
  rcases hp : s.prevOk target with _ | p <;> rw [hp] at he
  · simp at he
    rw [he]
    exact mkPingEvent_target target (probe target)
  · replace he : e ∈ (if p ≠ (probe target).ok then [mkPingEvent target (probe target)]
        else []) := he
    by_cases hne : p ≠ (probe target).ok
    · rw [if_pos hne] at he
      simp at he
      rw [he]
      exact mkPingEvent_target target (probe target)
    · rw [if_neg hne] at he
      cases he

/-- What the loop body for a target does to that target's projection of the
state: prev_ok becomes the new ok, the record is incremented then replaced,
and a baseline or transition event is logged exactly as the code's
conditional does. -/
theorem step_self (probe : String → PResult) (now : Nat) (s : WorkerState)
    (target : String) :
    (pingTargetStep probe now s target).1.prevOk target = some (probe target).ok ∧
    (pingTargetStep probe now s target).1.store target =
      { ok := (probe target).ok, latency_ms := (probe target).latency_ms,
        ts := some now, err := (probe target).err,
        misses := if (probe target).ok then (s.store target).misses
                  else (s.store target).misses + 1,
        checks := (s.store target).checks + 1 } ∧
    (pingTargetStep probe now s target).2 =
      (match s.prevOk target with
       | none => [mkPingEvent target (probe target)]
       | some p => if p ≠ (probe target).ok then [mkPingEvent target (probe target)]
                   else []) := by
  refine ⟨by simp [pingTargetStep], ?_, rfl⟩
  simp [pingTargetStep, PingState.update, PingState.increment]

/-- A full cycle leaves the projection of a target not in the list unchanged
and logs no event for it. -/
theorem cycle_not_mem (probe : String → PResult) (now : Nat) :
    ∀ (targets : List String) (s : WorkerState) (t : String), t ∉ targets →
      (pingCycle probe now s targets).1.store t = s.store t ∧
      (pingCycle probe now s targets).1.prevOk t = s.prevOk t ∧
      eventsFor t (pingCycle probe now s targets).2 = [] := by
  intro targets
  induction targets with
  | nil => intro s t _; exact ⟨rfl, rfl, rfl⟩
  | cons u rest ih =>
    intro s t ht
    have htu : t ≠ u := fun h => ht (h ▸ List.mem_cons_self u rest)
    have htr : t ∉ rest := fun h => ht (List.mem_cons_of_mem u h)
    have hstep := step_store_ne probe now s u t htu
    have hrec := ih (pingTargetStep probe now s u).1 t htr
    simp only [pingCycle]
    refine ⟨?_, ?_, ?_⟩
    · rw [hrec.1, hstep.1]
    · rw [hrec.2.1, hstep.2]
    · rw [eventsFor, List.filter_append]
      have hdrop : (pingTargetStep probe now s u).2.filter (fun e => e.target == t) = [] :=
        List.filter_eq_nil_iff.mpr (fun e he hbeq => by
          rw [step_events_target probe now s u e he] at hbeq
          exact htu (beq_iff_eq.mp hbeq).symm)
      have hrest := hrec.2.2
      rw [eventsFor] at hrest
      rw [hdrop, hrest, List.append_nil]

/-- A full cycle over a duplicate-free target list acts on the projection of
a member target exactly as the single loop body for that target does. -/
theorem cycle_mem (probe : String → PResult) (now : Nat) :
    ∀ (targets : List String), targets.Nodup →
      ∀ (s : WorkerState) (t : String), t ∈ targets →
        (pingCycle probe now s targets).1.prevOk t = some (probe t).ok ∧
        (pingCycle probe now s targets).1.store t =
          { ok := (probe t).ok, latency_ms := (probe t).latency_ms,
            ts := some now, err := (probe t).err,
            misses := if (probe t).ok then (s.store t).misses
                      else (s.store t).misses + 1,
            checks := (s.store t).checks + 1 } ∧
        eventsFor t (pingCycle probe now s targets).2 =
          (match s.prevOk t with
           | none => [mkPingEvent t (probe t)]
           | some p => if p ≠ (probe t).ok then [mkPingEvent t (probe t)] else []) := by
  intro targets
  induction targets with
  | nil => intro _ s t ht; cases ht
  | cons u rest ih =>
    intro hnd s t ht
    have hnd2 : rest.Nodup := (List.nodup_cons.mp hnd).2
    by_cases htu : t = u
    · subst htu
      have hnr : t ∉ rest := (List.nodup_cons.mp hnd).1
      have hstep := step_self probe now s t
      have hrest := cycle_not_mem probe now rest (pingTargetStep probe now s t).1 t hnr
      simp only [pingCycle]
      refine ⟨?_, ?_, ?_⟩
      · rw [hrest.2.1, hstep.1]
      · rw [hrest.1, hstep.2.1]
      · rw [eventsFor, List.filter_append]
        have hkeep : (pingTargetStep probe now s t).2.filter (fun e => e.target == t) =
            (pingTargetStep probe now s t).2 :=
          List.filter_eq_self.mpr (fun e he => by
            rw [step_events_target probe now s t e he]
            exact beq_self_eq_true t)
        have hrest2 := hrest.2.2
        rw [eventsFor] at hrest2
        rw [hkeep, hrest2, List.append_nil]
        exact hstep.2.2
    · have htr : t ∈ rest := by
        cases ht with
        | head => exact absurd rfl htu
        | tail _ h => exact h
      have hstep := step_store_ne probe now s u t (fun h => htu h)
      have hih := ih hnd2 (pingTargetStep probe now s u).1 t htr
      simp only [pingCycle]
      refine ⟨?_, ?_, ?_⟩
      · rw [hih.1]
      · rw [hih.2.1, hstep.1]
      · rw [eventsFor, List.filter_append]
        have hdrop : (pingTargetStep probe now s u).2.filter (fun e => e.target == t) = [] :=
          List.filter_eq_nil_iff.mpr (fun e he hbeq => by
            rw [step_events_target probe now s u e he] at hbeq
            exact htu (beq_iff_eq.mp hbeq).symm)
        have hih2 := hih.2.2
        rw [eventsFor] at hih2
        rw [hdrop, hih2, List.nil_append, hstep.2]

/-- The run of the ping loop, projected to one member target of a
duplicate-free target list: the filtered event log matches the spec-side
transition list, and the counters accumulate one check per cycle and one
miss per failed cycle. -/
theorem runAux_proj (targets : List String) (hnd : targets.Nodup) (t : String)
    (ht : t ∈ targets) :
    ∀ (cycles : List (String → PResult)) (i : Nat) (s : WorkerState),
      eventsFor t (runPingAux targets i s cycles).2 =
        expectedEvents t (s.prevOk t) (cycles.map (fun c => c t)) ∧
      ((runPingAux targets i s cycles).1.store t).checks =
        (s.store t).checks + cycles.length ∧
      ((runPingAux targets i s cycles).1.store t).misses =
        (s.store t).misses + countFails (cycles.map (fun c => c t)) := by
  intro cycles
  induction cycles with
  | nil =>
    intro i s
    cases hp : s.prevOk t <;>
      simp [runPingAux, eventsFor, expectedEvents, countFails, hp]
  | cons c cs ih =>
    intro i s
    have hc := cycle_mem c i targets hnd s t ht
    have hih := ih (i + 1) (pingCycle c i s targets).1
    simp only [runPingAux]
    refine ⟨?_, ?_, ?_⟩
    · rw [eventsFor, List.filter_append]
      have h1 := hc.2.2
      rw [eventsFor] at h1
      have h2 := hih.1
      rw [eventsFor] at h2
      rw [h1, h2, hc.1]
      cases hp : s.prevOk t with
      | none => simp [expectedEvents, List.map_cons]
      | some p => simp [expectedEvents, List.map_cons]
    · rw [hih.2.1, hc.2.1]
      simp [List.length_cons]
      ring
    · rw [hih.2.2, hc.2.1]
      cases hok : (c t).ok <;>
        (simp [countFails, List.map_cons, List.filter_cons, hok]; try ring)

/-- C1: for every target of a duplicate-free target list and every sequence
of probe outcomes, the events the ping loop logs for that target are exactly
the spec-side transition list: one baseline event on the first observation,
one event whenever ok differs from the immediately preceding observation,
and none on a repeated identical observation. -/
theorem ping_transition_events (targets : List String) (hnd : targets.Nodup)
    (t : String) (ht : t ∈ targets) (cycles : List (String → PResult)) :
    eventsFor t (runPing targets cycles).2 =
      expectedEvents t none (cycles.map (fun c => c t)) := by
  have h := (runAux_proj targets hnd t ht cycles 0 initWorker).1
  simpa [initWorker, runPing] using h

/-- Witness for C1 at the spec's scenario: the target fails twice then
succeeds once, and exactly one PING_DOWN followed by exactly one PING_UP is
logged. -/
theorem ping_transition_events_witness :
    eventsFor "10.0.0.5"
      (runPing ["10.0.0.5"]
        [fun _ => ⟨false, none, some "unreachable"⟩,
         fun _ => ⟨false, none, some "unreachable"⟩,
         fun _ => ⟨true, some 12, none⟩]).2 =
      [PingEvent.down "10.0.0.5" (some "unreachable"),
       PingEvent.up "10.0.0.5" (some 12)] := by
  rw [ping_transition_events ["10.0.0.5"] (by decide) "10.0.0.5" (by decide)]
  rfl

/-- C2: after N probe cycles from the initial state, a target's record has
checks = N and misses equal to the number of failed cycles, hence
misses ≤ checks; and the invariant misses ≤ checks of each record is
preserved pointwise by update, increment and snapshot. -/
theorem ping_counters (targets : List String) (hnd : targets.Nodup)
    (t : String) (ht : t ∈ targets) (cycles : List (String → PResult)) :
    ((runPing targets cycles).1.store t).checks = cycles.length ∧
    ((runPing targets cycles).1.store t).misses =
      countFails (cycles.map (fun c => c t)) ∧
    ((runPing targets cycles).1.store t).misses ≤
      ((runPing targets cycles).1.store t).checks ∧
    (∀ (store : PingStore) (target : String) (ok : Bool) (lat : Option Rat)
        (err : Option String) (now : Nat) (u : String),
        (store u).misses ≤ (store u).checks →
        ((PingState.update store target ok lat err now) u).misses ≤
          ((PingState.update store target ok lat err now) u).checks) ∧
    (∀ (store : PingStore) (target : String) (ok : Bool) (u : String),
        (store u).misses ≤ (store u).checks →
        ((PingState.increment store target ok) u).misses ≤
          ((PingState.increment store target ok) u).checks) ∧
    (∀ (store : PingStore) (u : String),
        (store u).misses ≤ (store u).checks →
        ((PingState.snapshot store) u).misses ≤
          ((PingState.snapshot store) u).checks) := by
  have h := runAux_proj targets hnd t ht cycles 0 initWorker
  have hchecks : ((runPing targets cycles).1.store t).checks = cycles.length := by
    have := h.2.1
    simpa [initWorker, runPing, initRec] using this
  have hmisses : ((runPing targets cycles).1.store t).misses =
      countFails (cycles.map (fun c => c t)) := by
    have := h.2.2
    simpa [initWorker, runPing, initRec] using this
  refine ⟨hchecks, hmisses, ?_, ?_, ?_, ?_⟩
  · rw [hchecks, hmisses]
    calc countFails (cycles.map (fun c => c t)) ≤ (cycles.map (fun c => c t)).length :=
          List.length_filter_le _ _
      _ = cycles.length := List.length_map _ _
  · intro store target ok lat err now u hu
    by_cases h2 : u = target
    · subst h2
      simpa [PingState.update] using hu
    · simpa [PingState.update, h2] using hu
  · intro store target ok u hu
    by_cases h2 : u = target
    · subst h2
      simp only [PingState.increment, if_pos rfl]
      cases ok with
      | false => simpa using Nat.succ_le_succ hu
      | true => simpa using Nat.le_succ_of_le hu
    · simpa [PingState.increment, h2] using hu
  · intro store u hu
    exact hu

/-- Witness for C2 at the spec's scenario: three cycles, two failures then a
success, leaving checks = 3 and misses = 2. -/
theorem ping_counters_witness :
    ((runPing ["10.0.0.5"]
        [fun _ => ⟨false, none, some "unreachable"⟩,
         fun _ => ⟨false, none, some "unreachable"⟩,
         fun _ => ⟨true, some 12, none⟩]).1.store "10.0.0.5").checks = 3 ∧
    ((runPing ["10.0.0.5"]
        [fun _ => ⟨false, none, some "unreachable"⟩,
         fun _ => ⟨false, none, some "unreachable"⟩,
         fun _ => ⟨true, some 12, none⟩]).1.store "10.0.0.5").misses = 2 := by
  have h := ping_counters ["10.0.0.5"] (by decide) "10.0.0.5" (by decide)
    [fun _ => ⟨false, none, some "unreachable"⟩,
     fun _ => ⟨false, none, some "unreachable"⟩,
     fun _ => ⟨true, some 12, none⟩]
  exact ⟨h.1.trans (by rfl), h.2.1.trans (by rfl)⟩

/-- The loop body for one target preserves the latency invariant of the
store, provided the probe result carries no latency on failure. -/
theorem step_preserves_latInv (probe : String → PResult) (now : Nat)
    (s : WorkerState) (target : String)
    (hprobe : ∀ u, (probe u).ok = false → (probe u).latency_ms = none)
    (hinv : latInv s.store) :
    latInv (pingTargetStep probe now s target).1.store := by
  intro u
  simp only [pingTargetStep, PingState.update, PingState.increment]
  by_cases hu : u = target
  · simp only [if_pos hu]
    intro hs
    cases hok : (probe target).ok with
    | false =>
      rw [hprobe target hok] at hs
      cases hs
    | true => rfl
  · simp only [if_neg hu]
    exact hinv u

/-- A full cycle preserves the latency invariant. -/
theorem cycle_preserves_latInv (probe : String → PResult) (now : Nat)
    (hprobe : ∀ u, (probe u).ok = false → (probe u).latency_ms = none) :
    ∀ (targets : List String) (s : WorkerState),
      latInv s.store → latInv (pingCycle probe now s targets).1.store := by
  intro targets
  induction targets with
  | nil => intro s hinv; exact hinv
  | cons u rest ih =>
    intro s hinv
    simp only [pingCycle]
    exact ih _ (step_preserves_latInv probe now s u hprobe hinv)

/-- C6: in every store state reachable by running ping cycles from the
initial state with probe results that carry no latency on failure, a
record's latency is present only when its ok flag is true; and try_ping_once
returns a null latency exactly on failure. -/
theorem ping_latency_invariant (targets : List String)
    (cycles : List (String → PResult))
    (hprobe : ∀ c ∈ cycles, ∀ u, (c u).ok = false → (c u).latency_ms = none) :
    latInv (runPing targets cycles).1.store ∧
    (∀ (env : Nat → AttemptResult) (target : String),
      (tryPingOnce env target).1.ok = false →
      (tryPingOnce env target).1.latency_ms = none) ∧
    (∀ (env : Nat → AttemptResult) (target : String),
      (tryPingOnce env target).1.ok = true →
      ((tryPingOnce env target).1.latency_ms).isSome) := by
  refine ⟨?_, ?_, ?_⟩
  · have main : ∀ (cs : List (String → PResult)) (i : Nat) (s : WorkerState),
        (∀ c ∈ cs, ∀ u, (c u).ok = false → (c u).latency_ms = none) →
        latInv s.store → latInv (runPingAux targets i s cs).1.store := by
      intro cs
      induction cs with
      | nil => intro i s _ hinv; exact hinv
      | cons c rest ih =>
        intro i s hcs hinv
        simp only [runPingAux]
        refine ih (i + 1) _ (fun d hd => hcs d (List.mem_cons_of_mem c hd)) ?_
        exact cycle_preserves_latInv c i (hcs c (List.mem_cons_self c rest)) targets s hinv
    refine main cycles 0 initWorker hprobe ?_
    intro u hu
    cases hu
  · intro env target hok
    exact ((tryPingLoop_shape (pingVariants target) env 0 none).2 hok).1
  · intro env target hok
    exact ((tryPingLoop_shape (pingVariants target) env 0 none).1 hok).2

/-- Witness for C6 at a one-target, one-cycle run whose probe failed with a
null latency. -/
theorem ping_latency_invariant_witness :
    latInv (runPing ["10.0.0.5"] [fun _ => ⟨false, none, some "no route"⟩]).1.store := by
  have h := ping_latency_invariant ["10.0.0.5"] [fun _ => ⟨false, none, some "no route"⟩]
    (by intro c hc u hu
        have hcEq : c = fun _ => (⟨false, none, some "no route"⟩ : PResult) := by
          simpa using hc
        rw [hcEq])
  exact h.1

/-- A character of the output of a single-character replace comes from the
replacement string or is an untouched character of the input. -/
theorem mem_replaceChar {x : Char} :
    ∀ (l : List Char) (c : Char) (r : List Char),
      x ∈ replaceChar l c r → x ∈ r ∨ (x ∈ l ∧ x ≠ c) := by
  intro l c r
  induction l with
  | nil => intro h; cases h
  | cons y ys ih =>
    simp only [replaceChar, List.mem_append]
    intro h
    rcases h with h | h
    · by_cases hyc : y = c
      · rw [if_pos hyc] at h
        exact Or.inl h
      · rw [if_neg hyc] at h
        simp at h
        subst h
        exact Or.inr ⟨List.mem_cons_self x ys, hyc⟩
    · rcases ih h with h2 | ⟨h2, h3⟩
      · exact Or.inl h2
      · exact Or.inr ⟨List.mem_cons_of_mem y h2, h3⟩

/-- html_escape output contains no literal opening angle bracket. -/
theorem html_escape_no_lt (s : String) : '<' ∉ (html_escape s).data := by
  intro h
  simp only [html_escape] at h
  rcases mem_replaceChar _ _ _ h with h | ⟨h, -⟩
  · exact absurd h (by decide)
  rcases mem_replaceChar _ _ _ h with h | ⟨h, -⟩
  · exact absurd h (by decide)
  rcases mem_replaceChar _ _ _ h with h | ⟨h, -⟩
  · exact absurd h (by decide)
  rcases mem_replaceChar _ _ _ h with h | ⟨-, h2⟩
  · exact absurd h (by decide)
  · exact h2 rfl

/-- html_escape output contains no literal closing angle bracket. -/
theorem html_escape_no_gt (s : String) : '>' ∉ (html_escape s).data := by
  intro h
  simp only [html_escape] at h
  rcases mem_replaceChar _ _ _ h with h | ⟨h, -⟩
  · exact absurd h (by decide)
  rcases mem_replaceChar _ _ _ h with h | ⟨h, -⟩
  · exact absurd h (by decide)
  rcases mem_replaceChar _ _ _ h with h | ⟨-, h2⟩
  · exact absurd h (by decide)
  · exact h2 rfl

/-- html_escape output contains no literal double quote. -/
theorem html_escape_no_quote (s : String) : quoteChar ∉ (html_escape s).data := by
  intro h
  simp only [html_escape] at h
  rcases mem_replaceChar _ _ _ h with h | ⟨h, -⟩
  · exact absurd h (by decide)
  rcases mem_replaceChar _ _ _ h with h | ⟨-, h2⟩
  · exact absurd h (by decide)
  · exact h2 rfl

/-- A pattern occurring inside an append occurs in the left part, in the
right part, or splits into a non-empty suffix of the left part followed by a
non-empty prefix of the right part. -/
theorem append_infix_split {p A B : List Char} (h : p <:+: A ++ B) :
    p <:+: A ∨ p <:+: B ∨
    ∃ u v, u ++ v = p ∧ u ≠ [] ∧ v ≠ [] ∧ u <:+ A ∧ v <+: B := by
  obtain ⟨s, t, hst⟩ := h
  rw [List.append_assoc] at hst
  rcases List.append_eq_append_iff.mp hst with ⟨a2, hA, hpt⟩ | ⟨c2, _, hB⟩
  · rcases List.append_eq_append_iff.mp hpt with ⟨x, ha2, _⟩ | ⟨y, hp, hB2⟩
    · left
      exact ⟨s, x, by rw [hA, ha2]; exact List.append_assoc s p x⟩
    · by_cases ha2e : a2 = []
      · subst ha2e
        simp only [List.nil_append] at hp
        right; left
        exact ⟨[], t, by simp [hB2, hp]⟩
      · by_cases hye : y = []
        · subst hye
          rw [List.append_nil] at hp
          left
          exact ⟨s, [], by simp [hA, hp]⟩
        · right; right
          exact ⟨a2, y, hp.symm, ha2e, hye, ⟨s, hA.symm⟩, ⟨t, hB2.symm⟩⟩
  · right; left
    exact ⟨c2, t, by rw [hB]; exact List.append_assoc c2 p t⟩

/-- A piece of interpolated data containing no opening angle bracket
satisfies all the piece conditions. -/
theorem dyn_ok (l : List Char) (h : '<' ∉ l) : pieceOK (RPiece.dyn l) := by
  refine ⟨?_, ?_, ?_⟩
  · intro hin
    exact h (hin.subset (by decide))
  · intro hs
    exact h (hs.subset (by decide))
  · intro hs
    exact h (hs.subset (by decide))

/-- When every piece satisfies the conditions, the concatenated page does
not contain the three-character prefix of the script tag: each piece is
clean inside, and no piece ends so that a straddling occurrence could start
at its edge. -/
theorem noSC_of_pieces :
    ∀ (ps : List RPiece), allOK ps → ¬ sc <:+: renderPieces ps := by
  intro ps
  induction ps with
  | nil =>
    intro _ h
    rw [show renderPieces [] = [] from rfl, List.infix_nil] at h
    exact absurd h (by decide)
  | cons p ps ih =>
    intro hall h
    have hp := hall p (List.mem_cons_self p ps)
    have hrest := ih (fun q hq => hall q (List.mem_cons_of_mem p hq))
    have h2 : sc <:+: p.data ++ renderPieces ps := h
    rcases append_infix_split h2 with h3 | h3 | ⟨u, v, huv, hu, hv, hsuf, -⟩
    · exact hp.1 h3
    · exact hrest h3
    · rcases u with _ | ⟨a, u⟩
      · exact hu rfl
      rcases u with _ | ⟨b, u⟩
      · simp only [List.cons_append, List.nil_append, sc, List.cons.injEq] at huv
        obtain ⟨ha, hv2⟩ := huv
        subst ha
        exact hp.2.1 hsuf
      rcases u with _ | ⟨c2, u⟩
      · simp only [List.cons_append, List.nil_append, sc, List.cons.injEq] at huv
        obtain ⟨ha, hb, hv2⟩ := huv
        subst ha
        subst hb
        exact hp.2.2 hsuf
      · simp only [List.cons_append, sc, List.cons.injEq] at huv
        obtain ⟨-, -, -, huv2⟩ := huv
        exact hv (List.append_eq_nil.mp huv2).2

/-- A decimal digit character is a digit. -/
theorem digitChar_isDigit (n : Nat) : (digitChar n).isDigit = true := by
  unfold digitChar
  have hb : n % 10 < 10 := by omega
  generalize hg : n % 10 = k at hb ⊢
  interval_cases k <;> decide

/-- Every character of a decimal representation is a digit. -/
theorem natRepr_isDigit (n : Nat) : ∀ c ∈ natRepr n, c.isDigit = true := by
  induction n using Nat.strong_induction_on with
  | _ n ih =>
    rw [natRepr.eq_def]
    rcases Nat.lt_or_ge n 10 with hn | hn
    · rw [dif_pos hn]
      intro c hc
      simp at hc
      rw [hc]
      exact digitChar_isDigit n
    · rw [dif_neg (Nat.not_lt.mpr hn)]
      intro c hc
      rcases List.mem_append.mp hc with h | h
      · exact ih (n / 10) (Nat.div_lt_self (by omega) (by omega)) c h
      · simp at h
        rw [h]
        exact digitChar_isDigit n

/-- A decimal representation contains no opening angle bracket. -/
theorem natRepr_not_lt (n : Nat) : '<' ∉ natRepr n := by
  intro h
  have := natRepr_isDigit n '<' h
  exact absurd this (by decide)

/-- The two-decimal latency format contains no opening angle bracket. -/
theorem fmt2_not_lt (x : Rat) : '<' ∉ (fmt2 x).data := by
  intro h
  simp only [fmt2, String.data_append, List.mem_append] at h
  rcases h with ((h | h) | h) | h
  · exact natRepr_not_lt _ h
  · exact absurd h (by decide)
  · revert h
    split <;> (intro h; exact absurd h (by decide))
  · exact natRepr_not_lt _ h

/-- The one-decimal size format contains no opening angle bracket when the
unit does not. -/
theorem fmt1_not_lt (x : Rat) (u : String) (hu : '<' ∉ u.data) :
    '<' ∉ (fmt1 x u).data := by
  intro h
  simp only [fmt1, String.data_append, List.mem_append] at h
  rcases h with (((h | h) | h) | h) | h
  · exact natRepr_not_lt _ h
  · exact absurd h (by decide)
  · exact natRepr_not_lt _ h
  · exact absurd h (by decide)
  · exact hu h

/-- A value returned by the human_bytes loop contains no opening angle
bracket when no unit does. -/
theorem humanBytesLoop_not_lt :
    ∀ (us : List String) (x : Rat) (s : String),
      (∀ u ∈ us, '<' ∉ u.data) → humanBytesLoop x us = some s → '<' ∉ s.data := by
  intro us
  induction us with
  | nil => intro x s _ h; cases h
  | cons u rest ih =>
    intro x s hall heq
    rw [humanBytesLoop] at heq
    split at heq
    · simp only [Option.some.injEq] at heq
      rw [← heq]
      exact fmt1_not_lt x u (hall u (List.mem_cons_self u rest))
    · exact ih (x / 1024) s (fun w hw => hall w (List.mem_cons_of_mem u hw)) heq

/-- The interpolated human_bytes value contains no opening angle bracket. -/
theorem pyStr_human_bytes_not_lt (n : Nat) : '<' ∉ (pyStr (human_bytes n)).data := by
  rcases heq : human_bytes n with _ | s
  · decide
  · have heq2 : humanBytesLoop (n : Rat) hbUnits = some s := heq
    have := humanBytesLoop_not_lt hbUnits (n : Rat) s (by decide) heq2
    simpa [pyStr] using this

/-- Safe lists of pieces are closed under append. -/
theorem allOK_append {A B : List RPiece} (hA : allOK A) (hB : allOK B) :
    allOK (A ++ B) := by
  intro p hp
  rcases List.mem_append.mp hp with h | h
  · exact hA p h
  · exact hB p h

/-- Safe lists of pieces are closed under flattening. -/
theorem allOK_flatten {L : List (List RPiece)} (h : ∀ l ∈ L, allOK l) :
    allOK L.flatten := by
  intro p hp
  rcases List.mem_flatten.mp hp with ⟨l, hl, hpl⟩
  exact h l hl p hpl

/-- Every piece of a ping row is safe: the static fragments by computation,
the escaped target and time because escaping removes every bracket, and the
status, colour, latency and miss count because they are bracket-free
generated text. -/
theorem ping_row_pieces_ok (t : String) (rec : PingRec) (format_dt : Nat → String) :
    allOK (ping_row_pieces t rec format_dt) := by
  intro p hp
  simp only [ping_row_pieces, List.mem_cons, List.not_mem_nil, or_false] at hp
  rcases hp with h | h | h | h | h | h | h | h | h | h | h | h | h <;> subst h
  · decide
  · exact dyn_ok _ (html_escape_no_lt t)
  · decide
  · cases hok : rec.ok <;> decide
  · decide
  · cases hok : rec.ok <;> decide
  · decide
  · cases hl : rec.latency_ms with
    | none => decide
    | some l =>
      refine dyn_ok _ ?_
      intro hmem
      rw [String.data_append] at hmem
      rcases List.mem_append.mp hmem with h2 | h2
      · exact fmt2_not_lt l h2
      · exact absurd h2 (by decide)
  · decide
  · exact dyn_ok _ (fun h2 => natRepr_not_lt rec.misses h2)
  · decide
  · exact dyn_ok _ (html_escape_no_lt _)
  · decide

/-- Every piece of the rendered page is safe. -/
theorem render_index_pieces_ok (now_local host ips : String) (targets : List String)
    (pings : PingStore) (hb : HbState) (format_dt : Nat → String)
    (disk_path : String) (disk_total disk_used disk_free : Nat)
    (events_log_path events_text : String) :
    allOK (render_index_pieces now_local host ips targets pings hb format_dt
      disk_path disk_total disk_used disk_free events_log_path events_text) := by
  simp only [render_index_pieces]
  refine allOK_append (allOK_append (allOK_append (allOK_append ?_ ?_) ?_) ?_) ?_
  · intro p hp
    simp only [List.mem_cons, List.not_mem_nil, or_false] at hp
    rcases hp with h | h | h | h | h | h | h | h | h | h <;> subst h
    · decide
    · decide
    · decide
    · decide
    · exact dyn_ok _ (html_escape_no_lt _)
    · decide
    · exact dyn_ok _ (html_escape_no_lt _)
    · decide
    · exact dyn_ok _ (html_escape_no_lt _)
    · decide
  · refine allOK_flatten ?_
    intro l hl
    rcases List.mem_map.mp hl with ⟨t, _, hEq⟩
    rw [← hEq]
    exact ping_row_pieces_ok t (pings t) format_dt
  · intro p hp
    simp only [List.mem_cons, List.not_mem_nil, or_false] at hp
    rcases hp with h | h | h | h | h | h | h <;> subst h
    · decide
    · exact dyn_ok _ (html_escape_no_lt _)
    · decide
    · exact dyn_ok _ (html_escape_no_lt _)
    · decide
    · exact dyn_ok _ (fun h2 => natRepr_not_lt hb.bytes_written h2)
    · decide
  · rcases herr : hb.last_error with _ | e <;> simp only [herr]
    · intro p hp
      exact absurd hp (List.not_mem_nil p)
    · intro p hp
      simp only [List.mem_cons, List.not_mem_nil, or_false] at hp
      rcases hp with h | h | h <;> subst h
      · decide
      · exact dyn_ok _ (html_escape_no_lt _)
      · decide
  · intro p hp
    simp only [List.mem_cons, List.not_mem_nil, or_false] at hp
    rcases hp with h | h | h | h | h | h | h | h | h | h | h | h | h <;> subst h
    · decide
    · exact dyn_ok _ (html_escape_no_lt _)
    · decide
    · exact dyn_ok _ (pyStr_human_bytes_not_lt disk_total)
    · decide
    · exact dyn_ok _ (pyStr_human_bytes_not_lt disk_used)
    · decide
    · exact dyn_ok _ (pyStr_human_bytes_not_lt disk_free)
    · decide
    · exact dyn_ok _ (html_escape_no_lt _)
    · decide
    · exact dyn_ok _ (html_escape_no_lt _)
    · decide

/-- C7: for every combination of dynamic inputs, the page render_index
produces never contains the literal substring of a script tag: every dynamic
string is interpolated through html_escape, whose output contains no literal
angle bracket or double quote and performs the four named replacements, and
the bracket-free generated interpolations cannot complete a tag either. -/
theorem render_index_escapes (now_local host ips : String) (targets : List String)
    (pings : PingStore) (hb : HbState) (format_dt : Nat → String)
    (disk_path : String) (disk_total disk_used disk_free : Nat)
    (events_log_path events_text : String) :
    ¬ ("<script>".data <:+:
        (render_index now_local host ips targets pings hb format_dt disk_path
          disk_total disk_used disk_free events_log_path events_text).data) ∧
    (∀ s : String,
      '<' ∉ (html_escape s).data ∧ '>' ∉ (html_escape s).data ∧
      quoteChar ∉ (html_escape s).data ∧
      ¬ ("<script>".data <:+: (html_escape s).data)) ∧
    html_escape "&" = "&amp;" ∧
    html_escape "<" = "&lt;" ∧
    html_escape ">" = "&gt;" ∧
    html_escape (String.mk [quoteChar]) = "&quot;" := by
  refine ⟨?_, ?_, by decide, by decide, by decide, by decide⟩
  · intro hinf
    have hsc : sc <:+:
        (render_index now_local host ips targets pings hb format_dt disk_path
          disk_total disk_used disk_free events_log_path events_text).data :=
      (show sc <:+: "<script>".data by decide).trans hinf
    exact noSC_of_pieces _
      (render_index_pieces_ok now_local host ips targets pings hb format_dt
        disk_path disk_total disk_used disk_free events_log_path events_text) hsc
  · intro s
    exact ⟨html_escape_no_lt s, html_escape_no_gt s, html_escape_no_quote s,
      fun hinf => html_escape_no_lt s (hinf.subset (by decide))⟩

/-- Witness for C7: every dynamic input set to the spec's example value, a
populated heartbeat error included; the rendered page still never contains
the script-tag text, and the ampersand replacement holds. -/
theorem render_index_escapes_witness :
    ¬ ("<script>".data <:+:
        (render_index "<script>" "<script>" "<script>" ["<script>"]
          (fun _ => initRec) ⟨"<script>", none, some "<script>", 0⟩
          (fun _ => "<script>") "<script>" 0 0 0 "<script>" "<script>").data) ∧
    html_escape "&" = "&amp;" := by
  have h := render_index_escapes "<script>" "<script>" "<script>" ["<script>"]
    (fun _ => initRec) ⟨"<script>", none, some "<script>", 0⟩
    (fun _ => "<script>") "<script>" 0 0 0 "<script>" "<script>"
  exact ⟨h.1, h.2.2.1⟩

/-- Counterexample to C8 as stated: the handler dispatches on a prefix test,
so the path "/healthz", which is neither "/health" nor "/", receives the
JSON health body rather than the HTML status page. -/
theorem doGET_healthz_counterexample :
    ("/healthz" : String) ≠ "/health" ∧
    ("/healthz" : String) ≠ "/" ∧
    (doGET "/healthz" "t0" "h0").body = BodyKind.healthJson true "t0" "h0" ∧
    (doGET "/healthz" "t0" "h0").body ≠ BodyKind.htmlPage := by
  refine ⟨by decide, by decide, ?_, ?_⟩ <;>
    simp [doGET, strStartsWith, noCacheValue, List.isPrefixOf]

/-- C8 amended: every GET response has status 200 and the no-cache headers;
a path starting with "/health" receives the JSON health payload whose ok
field is true regardless of ping or heartbeat state, and every other path
receives the HTML status page. -/
theorem doGET_amended (path now host : String) :
    (doGET path now host).status = 200 ∧
    (doGET path now host).cacheControl = noCacheValue ∧
    (doGET path now host).pragmaHeader = "no-cache" ∧
    (doGET path now host).expires = "0" ∧
    (strStartsWith path "/health" = true →
      (doGET path now host).body = BodyKind.healthJson true now host ∧
      (doGET path now host).contentType = "application/json") ∧
    (strStartsWith path "/health" = false →
      (doGET path now host).body = BodyKind.htmlPage ∧
      (doGET path now host).contentType = "text/html; charset=utf-8") := by
  by_cases h : strStartsWith path "/health" = true
  · simp [doGET, h]
  · have h2 : strStartsWith path "/health" = false := by
      cases hv : strStartsWith path "/health"
      · rfl
      · exact absurd hv h
    simp [doGET, h2]

/-- Witness for C8's amended statement on both branches of the dispatch. -/
theorem doGET_amended_witness :
    (doGET "/health" "t0" "h0").status = 200 ∧
    (doGET "/health" "t0" "h0").body = BodyKind.healthJson true "t0" "h0" ∧
    (doGET "/" "t0" "h0").body = BodyKind.htmlPage := by
  refine ⟨(doGET_amended "/health" "t0" "h0").1, ?_, ?_⟩
  · exact ((doGET_amended "/health" "t0" "h0").2.2.2.2.1 (by decide)).1
  · exact ((doGET_amended "/" "t0" "h0").2.2.2.2.2 (by decide)).1

/-- A hexadecimal digit is never a newline. -/
theorem hexDigitChar_ne_newline (n : Nat) : hexDigitChar n ≠ '\n' := by
  unfold hexDigitChar
  have hb : n % 16 < 16 := by omega
  generalize hg : n % 16 = k at hb ⊢
  interval_cases k <;> decide

/-- A decimal digit is never a newline. -/
theorem digitChar_ne_newline (n : Nat) : digitChar n ≠ '\n' := by
  unfold digitChar
  have hb : n % 10 < 10 := by omega
  generalize hg : n % 10 = k at hb ⊢
  interval_cases k <;> decide

/-- No character of a decimal representation is a newline. -/
theorem natRepr_ne_newline (n : Nat) : ∀ c ∈ natRepr n, c ≠ '\n' := by
  induction n using Nat.strong_induction_on with
  | _ n ih =>
    rw [natRepr.eq_def]
    rcases Nat.lt_or_ge n 10 with hn | hn
    · rw [dif_pos hn]
      intro c hc
      simp at hc
      rw [hc]
      exact digitChar_ne_newline n
    · rw [dif_neg (Nat.not_lt.mpr hn)]
      intro c hc
      rcases List.mem_append.mp hc with h | h
      · exact ih (n / 10) (Nat.div_lt_self (by omega) (by omega)) c h
      · simp at h
        rw [h]
        exact digitChar_ne_newline n

/-- No character of an integer representation is a newline. -/
theorem intRepr_ne_newline (i : Int) : ∀ c ∈ intRepr i, c ≠ '\n' := by
  unfold intRepr
  split
  · intro c hc
    cases hc with
    | head => decide
    | tail _ hc2 => exact natRepr_ne_newline i.natAbs c hc2
  · exact natRepr_ne_newline i.natAbs

/-- The JSON string escape of any character contains no newline. -/
theorem jsonEscapeChar_ne_newline (c : Char) : '\n' ∉ jsonEscapeChar c := by
  unfold jsonEscapeChar
  split_ifs with h1 h2 h3 h4 h5 h6 h7 h8
  · decide
  · decide
  · decide
  · decide
  · decide
  · decide
  · decide
  · intro hmem
    simp only [List.mem_cons, List.not_mem_nil, or_false] at hmem
    rcases hmem with h | h | h | h | h | h
    · exact absurd h (by decide)
    · exact absurd h (by decide)
    · exact absurd h (by decide)
    · exact absurd h (by decide)
    · exact hexDigitChar_ne_newline (c.toNat / 16) h.symm
    · exact hexDigitChar_ne_newline (c.toNat % 16) h.symm
  · intro hmem
    simp at hmem
    exact h3 hmem.symm

/-- A character of the folded escape of a string comes from the escape of
one of its characters or from the accumulator. -/
theorem mem_foldr_escape {x : Char} :
    ∀ (l : List Char) (acc : List Char),
      x ∈ l.foldr (fun c acc => jsonEscapeChar c ++ acc) acc →
      (∃ c ∈ l, x ∈ jsonEscapeChar c) ∨ x ∈ acc := by
  intro l
  induction l with
  | nil => intro acc h; exact Or.inr h
  | cons y ys ih =>
    intro acc h
    rcases List.mem_append.mp h with h | h
    · exact Or.inl ⟨y, List.mem_cons_self y ys, h⟩
    · rcases ih acc h with ⟨c, hc, hx⟩ | h2
      · exact Or.inl ⟨c, List.mem_cons_of_mem y hc, hx⟩
      · exact Or.inr h2

/-- json.dumps output contains no newline for any of the value shapes the
logger's call sites pass. -/
theorem jsonDumps_ne_newline (v : JVal) : '\n' ∉ (jsonDumps v).data := by
  cases v with
  | jstr s =>
    intro h
    have h2 : '\n' ∈ quoteChar ::
        s.data.foldr (fun c acc => jsonEscapeChar c ++ acc) [quoteChar] := h
    simp only [List.mem_cons] at h2
    rcases h2 with h2 | h2
    · exact absurd h2 (by decide)
    · rcases mem_foldr_escape s.data [quoteChar] h2 with ⟨c, _, hx⟩ | hacc
      · exact jsonEscapeChar_ne_newline c hx
      · exact absurd hacc (by decide)
  | jint n =>
    intro h
    have h2 : '\n' ∈ intRepr n := h
    exact intRepr_ne_newline n '\n' h2 rfl
  | jbool b => cases b <;> decide
  | jnull => decide

/-- Joining newline-free parts with single spaces yields a newline-free
string. -/
theorem joinSpace_ne_newline :
    ∀ (ps : List String), (∀ p ∈ ps, '\n' ∉ p.data) → '\n' ∉ (joinSpace ps).data := by
  intro ps
  induction ps with
  | nil => intro _ h; cases h
  | cons p rest ih =>
    intro hall h
    cases rest with
    | nil => exact hall p (List.mem_cons_self p []) h
    | cons q qs =>
      rw [show joinSpace (p :: q :: qs) = p ++ " " ++ joinSpace (q :: qs) from rfl,
        String.data_append, String.data_append] at h
      rcases List.mem_append.mp h with h | h
      · rcases List.mem_append.mp h with h | h
        · exact hall p (List.mem_cons_self p _) h
        · exact absurd h (by decide)
      · exact ih (fun r hr => hall r (List.mem_cons_of_mem p hr)) h

/-- The formatted log line contains exactly one newline, the trailing one,
whenever the timestamp, the event kind and the field keys are newline-free
(the JSON encoding of the values escapes any newline they contain). -/
theorem formatLine_count (ts event : String) (fields : List (String × JVal))
    (hts : '\n' ∉ ts.data) (hev : '\n' ∉ event.data)
    (hk : ∀ kv ∈ fields, '\n' ∉ (Prod.fst kv).data) :
    (formatLine ts event fields).data.count '\n' = 1 := by
  have hjoin : '\n' ∉
      (joinSpace (fields.map (fun kv => kv.1 ++ "=" ++ jsonDumps kv.2))).data := by
    refine joinSpace_ne_newline _ ?_
    intro p hp
    rcases List.mem_map.mp hp with ⟨kv, hkv, hpe⟩
    intro hmem
    rw [← hpe, String.data_append, String.data_append] at hmem
    rcases List.mem_append.mp hmem with h | h
    · rcases List.mem_append.mp h with h | h
      · exact hk kv hkv h
      · exact absurd h (by decide)
    · exact jsonDumps_ne_newline kv.2 h
  rw [formatLine]
  simp only [String.data_append, List.count_append]
  rw [List.count_eq_zero.mpr hts, List.count_eq_zero.mpr hev,
    List.count_eq_zero.mpr hjoin]
  decide

/-- C9: EventLogger.log is total over every environment: when the append to
the events file succeeds it receives the formatted line and nothing goes to
the diagnostic stream; when the append fails the very same line goes to the
diagnostic stream; when both writes fail the event is dropped and the call
still returns; and the formatted line is exactly one line, with its single
newline at the end. -/
theorem event_logger_log_total (env : LogEnv) (ts event : String)
    (fields : List (String × JVal))
    (hts : '\n' ∉ ts.data) (hev : '\n' ∉ event.data)
    (hk : ∀ kv ∈ fields, '\n' ∉ (Prod.fst kv).data) :
    (env.writeOk = true →
      EventLogger.log env ts event fields =
        ⟨some (formatLine ts event fields), none⟩) ∧
    (env.writeOk = false → env.stderrOk = true →
      EventLogger.log env ts event fields =
        ⟨none, some (formatLine ts event fields)⟩) ∧
    (env.writeOk = false → env.stderrOk = false →
      EventLogger.log env ts event fields = ⟨none, none⟩) ∧
    (formatLine ts event fields).data.count '\n' = 1 := by
  refine ⟨?_, ?_, ?_, formatLine_count ts event fields hts hev hk⟩
  · intro hw
    simp [EventLogger.log, hw]
  · intro hw hs
    simp [EventLogger.log, hw, hs]
  · intro hw hs
    simp [EventLogger.log, hw, hs]

/-- Witness for C9 in the spec's scenario: the events file is not writable,
the call does not raise, and the same single line goes to the diagnostic
stream. -/
theorem event_logger_log_total_witness :
    EventLogger.log ⟨false, true⟩ "2026-10-12T00:00:00+00:00" "PING_DOWN"
        [("target", JVal.jstr "10.0.0.5")] =
      ⟨none, some (formatLine "2026-10-12T00:00:00+00:00" "PING_DOWN"
        [("target", JVal.jstr "10.0.0.5")])⟩ ∧
    (formatLine "2026-10-12T00:00:00+00:00" "PING_DOWN"
        [("target", JVal.jstr "10.0.0.5")]).data.count '\n' = 1 := by
  have h := event_logger_log_total ⟨false, true⟩ "2026-10-12T00:00:00+00:00" "PING_DOWN"
    [("target", JVal.jstr "10.0.0.5")] (by decide) (by decide) (by decide)
  exact ⟨h.2.1 rfl rfl, h.2.2.2⟩

end LiveStatus
